import Mathlib

/-!
Verification of `django_extensions/db/fields/encrypted.py`: the encrypted
Django model fields (`BaseEncryptedField` over Keyczar, `BaseGpgField` over
python-gnupg).  Strings are modelled as lists of naturals: a Python 2
`unicode` value is a list of code points, a Python 2 `str` value is a list
of bytes.  `Crypter` models a `keyczar.Crypter` (whose `Decrypt` raises on
failure, modelled by `Option`); `Gnupg` models a `gnupg.GPG` handle (whose
`decrypt` never raises: `str()` of its result is empty on failure).
-/

namespace Encrypted

/-- A Python 2 string value: `uni` is a `unicode` string (code points),
`bytes` is a `str` (byte string). -/
inductive PyVal where
  | uni : List Nat → PyVal
  | bytes : List Nat → PyVal
  deriving DecidableEq, Repr

/-- The underlying list of a value; for ASCII comparisons (`startswith`
against an ASCII tag) code points and bytes coincide. -/
def PyVal.toList : PyVal → List Nat
  | .uni cs => cs
  | .bytes bs => bs

/-- Exceptions the module can raise. -/
inductive PyErr where
  /-- `keyczar.errors.KeyczarError` escaping `crypt.Decrypt` on bad
  ciphertext or wrong key; the spec calls it `DecryptionError`. -/
  | keyczarError
  /-- `UnicodeDecodeError` from `.decode('utf-8')`. -/
  | unicodeDecodeError
  /-- `django.core.exceptions.ImproperlyConfigured`, carrying the message;
  the spec calls it `ConfigurationError`. -/
  | improperlyConfigured (msg : String)
  deriving DecidableEq, Repr

/-- UTF-8 encoding of one code point (`unicode.encode('utf-8')`, one
character). -/
def utf8EncodeChar (c : Nat) : List Nat :=
  if c < 128 then [c]
  else if c < 2048 then [192 + c / 64, 128 + c % 64]
  else if c < 65536 then [224 + c / 4096, 128 + (c / 64) % 64, 128 + c % 64]
  else [240 + c / 262144, 128 + (c / 4096) % 64, 128 + (c / 64) % 64,
        128 + c % 64]

/-- UTF-8 encoding of a unicode string (`value.encode('utf-8')`). -/
def utf8Encode (cs : List Nat) : List Nat :=
  cs.flatMap utf8EncodeChar

/-- Is `b` a UTF-8 continuation byte (`10xxxxxx`)? -/
def isCont (b : Nat) : Bool :=
  b / 64 == 2

/-- One UTF-8 character off the front of a byte string: the code point and
the remaining bytes, or `none` on malformed input. -/
def utf8DecodeOne : List Nat → Option (Nat × List Nat)
  | [] => none
  | b :: rest =>
    if b < 128 then some (b, rest)
    else if b < 192 then none
    else if b < 224 then
      match rest with
      | b1 :: rest1 =>
        if isCont b1 then some ((b - 192) * 64 + (b1 - 128), rest1) else none
      | [] => none
    else if b < 240 then
      match rest with
      | b1 :: b2 :: rest2 =>
        if isCont b1 && isCont b2 then
          some ((b - 224) * 4096 + (b1 - 128) * 64 + (b2 - 128), rest2)
        else none
      | _ => none
    else if b < 248 then
      match rest with
      | b1 :: b2 :: b3 :: rest3 =>
        if isCont b1 && isCont b2 && isCont b3 then
          some ((b - 240) * 262144 + (b1 - 128) * 4096
                + (b2 - 128) * 64 + (b3 - 128), rest3)
        else none
      | _ => none
    else none

theorem utf8DecodeOne_length (l : List Nat) (c : Nat) (rest2 : List Nat)
    (h : utf8DecodeOne l = some (c, rest2)) : rest2.length < l.length := by
  match l with
  | [] => simp [utf8DecodeOne] at h
  | b :: rest =>
    simp only [utf8DecodeOne] at h
    split_ifs at h <;> first
      | (simp at h; omega)
      | (injection h with h1; injection h1 with h2 h3; subst h3; simp)
      | (split at h <;> simp_all <;> omega)

/-- The UTF-8 decode loop, structurally recursive on a fuel that bounds
the number of characters left (each character consumes at least one
byte, so `l.length` fuel always suffices). -/
def utf8DecodeFuel : Nat → List Nat → Option (List Nat)
  | _, [] => some []
  | 0, _ :: _ => none
  | fuel + 1, b :: rest =>
    match utf8DecodeOne (b :: rest) with
    | none => none
    | some (c, rest2) => (utf8DecodeFuel fuel rest2).map (fun cs => c :: cs)

/-- UTF-8 decoding of a byte string (`value.decode('utf-8')`); `none`
models the `UnicodeDecodeError` raised on malformed input. -/
def utf8Decode (l : List Nat) : Option (List Nat) :=
  utf8DecodeFuel l.length l

theorem utf8DecodeFuel_mono (fuel1 : Nat) :
    ∀ (fuel2 : Nat) (l : List Nat), l.length ≤ fuel1 → l.length ≤ fuel2 →
      utf8DecodeFuel fuel1 l = utf8DecodeFuel fuel2 l := by
  induction fuel1 with
  | zero =>
    intro fuel2 l h1 h2
    cases l with
    | nil => cases fuel2 <;> rfl
    | cons b rest => simp at h1
  | succ n ih =>
    intro fuel2 l h1 h2
    cases l with
    | nil => cases fuel2 <;> rfl
    | cons b rest =>
      cases fuel2 with
      | zero => simp at h2
      | succ m =>
        simp only [utf8DecodeFuel]
        cases hone : utf8DecodeOne (b :: rest) with
        | none => rfl
        | some pr =>
          obtain ⟨c, rest2⟩ := pr
          have hlen := utf8DecodeOne_length _ _ _ hone
          simp only [List.length_cons] at h1 h2 hlen
          dsimp only
          rw [ih m rest2 (by omega) (by omega)]

/-- A `keyczar.Crypter` as the field uses it: `Encrypt` on byte strings,
`Decrypt` that may raise (`none`), and the class of its primary key
(`isinstance(crypt.primary_key, keyczar.keys.RsaPublicKey)`). -/
structure Crypter where
  Encrypt : List Nat → List Nat
  Decrypt : List Nat → Option (List Nat)
  primaryKeyIsRsaPublic : Bool

/-- A `gnupg.GPG` handle as the field uses it: `str(gpg.encrypt(v, user))`,
`str(gpg.decrypt(c))` — which is the empty string when decryption fails,
python-gnupg raises nothing — and whether `settings.GPG_USER` occurs in
`str(gpg.list_keys(True))` (the secret keyring). -/
structure Gnupg where
  encryptStr : List Nat → List Nat
  decryptStr : List Nat → List Nat
  userInSecretKeys : Bool

/-- The Django settings the module reads; `none` models a missing
attribute (`not hasattr(settings, ...)`). -/
structure Settings where
  ENCRYPTED_FIELD_KEYS_DIR : Option String
  GPG_KEYS_DIR : Option String
  GPG_USER : Option String

/-- `BaseEncryptedField.prefix = 'enc_str:::'` as bytes/code points. -/
def encTag : List Nat := [101, 110, 99, 95, 115, 116, 114, 58, 58, 58]

/-- `BaseGpgField.prefix = 'gpg_str:::'` as bytes/code points. -/
def gpgTag : List Nat := [103, 112, 103, 95, 115, 116, 114, 58, 58, 58]

/-- The state a constructed field carries: `self.unencrypted_length` (the
caller's `max_length` kwarg) and the adjusted `kwargs['max_length']`
handed to the framework (the storage width), plus the field name used in
truncation warnings. -/
structure FieldCfg where
  name : String
  unencrypted_length : Option Nat
  max_length : Option Nat
  deriving DecidableEq, Repr

/-- Python truthiness of an optional integer (`if max_length:`). -/
def natTruthy : Option Nat → Bool
  | none => false
  | some m => m != 0

/-- `BaseEncryptedField.__init__`: fail with `ImproperlyConfigured` when
`settings.ENCRYPTED_FIELD_KEYS_DIR` is absent; else record
`unencrypted_length = kwargs.get('max_length')` and, when truthy, widen
`kwargs['max_length']` to `len(prefix) + len(crypt.Encrypt('x' * max_length))`
(`'x'` is byte 120). -/
def baseEncryptedFieldInit (st : Settings) (crypt : Crypter) (name : String)
    (maxLengthKwarg : Option Nat) : Except PyErr FieldCfg :=
  if st.ENCRYPTED_FIELD_KEYS_DIR = none then
    .error (.improperlyConfigured
      "You must set the ENCRYPTED_FIELD_KEYS_DIR setting to your Keyczar keys directory.")
  else
    .ok { name := name
          unencrypted_length := maxLengthKwarg
          max_length :=
            if natTruthy maxLengthKwarg then
              some (encTag.length
                + (crypt.Encrypt (List.replicate (maxLengthKwarg.getD 0) 120)).length)
            else maxLengthKwarg }

/-- `BaseEncryptedField.to_python`: public-key pass-through, else decrypt
prefixed non-empty values and UTF-8-decode the plaintext when non-empty,
else return the value unchanged. -/
def to_python (crypt : Crypter) (value : PyVal) : Except PyErr PyVal :=
  if crypt.primaryKeyIsRsaPublic then
    .ok value
  else if value.toList ≠ [] ∧ encTag.isPrefixOf value.toList then
    match crypt.Decrypt (value.toList.drop encTag.length) with
    | none => .error .keyczarError
    | some plain =>
      if plain ≠ [] then
        match utf8Decode plain with
        | some cs => .ok (.uni cs)
        | none => .error .unicodeDecodeError
      else .ok (.bytes plain)
  else
    .ok value

/-- The truncation warning `warnings.warn("Truncating field %s from %d to
%d bytes" % (name, len(value), max_length), EncryptionWarning)`, carrying
its format arguments. -/
structure TruncWarning where
  fieldName : String
  fromBytes : Nat
  toBytes : Nat
  deriving DecidableEq, Repr

/-- `if type(value) == unicode: value = value.encode('utf-8')`: the byte
string a value holds once inside `get_db_prep_value`. -/
def pyEncodeUtf8 : PyVal → List Nat
  | .uni cs => utf8Encode cs
  | .bytes bs => bs

/-- `BaseEncryptedField.get_db_prep_value`: pass truthy non-prefixed
values through UTF-8 encoding (if `unicode`), truncate to
`unencrypted_length` bytes with a warning when too long, encrypt and
prepend the tag; otherwise return the value unchanged.  The emitted
warning (if any) is returned alongside the value. -/
def get_db_prep_value (crypt : Crypter) (f : FieldCfg) (value : PyVal) :
    Option TruncWarning × PyVal :=
  if value.toList ≠ [] ∧ ¬ encTag.isPrefixOf value.toList then
    let v : List Nat := pyEncodeUtf8 value
    let wv : Option TruncWarning × List Nat :=
      if natTruthy f.unencrypted_length ∧ v.length > f.unencrypted_length.getD 0
      then
        (some { fieldName := f.name, fromBytes := v.length
                toBytes := f.unencrypted_length.getD 0 },
         v.take (f.unencrypted_length.getD 0))
      else (none, v)
    (wv.1, .bytes (encTag ++ crypt.Encrypt wv.2))
  else
    (none, value)

/-- The stored value produced by `get_db_prep_value`, warning discarded. -/
def encodeVal (crypt : Crypter) (f : FieldCfg) (value : PyVal) : PyVal :=
  (get_db_prep_value crypt f value).2

/-- `BaseGpgField.__init__`: fail with `ImproperlyConfigured` naming
`GPG_KEYS_DIR` or `GPG_USER` when absent; else the same max-length
widening with `str(gpg.encrypt('x' * max_length, GPG_USER))`. -/
def baseGpgFieldInit (st : Settings) (gpg : Gnupg) (name : String)
    (maxLengthKwarg : Option Nat) : Except PyErr FieldCfg :=
  if st.GPG_KEYS_DIR = none then
    .error (.improperlyConfigured
      "You must set the GPG_KEYS_DIR setting to your GPG keys directory.")
  else if st.GPG_USER = none then
    .error (.improperlyConfigured
      "You must set the GPG_USER setting to your GPG key user (usually an email).")
  else
    .ok { name := name
          unencrypted_length := maxLengthKwarg
          max_length :=
            if natTruthy maxLengthKwarg then
              some (gpgTag.length
                + (gpg.encryptStr (List.replicate (maxLengthKwarg.getD 0) 120)).length)
            else maxLengthKwarg }

/-- `BaseGpgField.to_python`: pass-through when `GPG_USER` is not in the
secret keyring, else `str(gpg.decrypt(...))` on prefixed non-empty values
(empty on failure, never raising) and UTF-8-decode when non-empty. -/
def gpgToPython (gpg : Gnupg) (value : PyVal) : Except PyErr PyVal :=
  if gpg.userInSecretKeys = false then
    .ok value
  else if value.toList ≠ [] ∧ gpgTag.isPrefixOf value.toList then
    let plain := gpg.decryptStr (value.toList.drop gpgTag.length)
    if plain ≠ [] then
      match utf8Decode plain with
      | some cs => .ok (.uni cs)
      | none => .error .unicodeDecodeError
    else .ok (.bytes plain)
  else
    .ok value

/-- `BaseGpgField.get_db_prep_value`: as the Keyczar variant, with the
`gpg_str:::` tag and `str(gpg.encrypt(value, GPG_USER))`. -/
def gpgGetDbPrepValue (gpg : Gnupg) (f : FieldCfg) (value : PyVal) :
    Option TruncWarning × PyVal :=
  if value.toList ≠ [] ∧ ¬ gpgTag.isPrefixOf value.toList then
    let v : List Nat := pyEncodeUtf8 value
    let wv : Option TruncWarning × List Nat :=
      if natTruthy f.unencrypted_length ∧ v.length > f.unencrypted_length.getD 0
      then
        (some { fieldName := f.name, fromBytes := v.length
                toBytes := f.unencrypted_length.getD 0 },
         v.take (f.unencrypted_length.getD 0))
      else (none, v)
    (wv.1, .bytes (gpgTag ++ gpg.encryptStr wv.2))
  else
    (none, value)

/-- The stored value produced by the GPG encode, warning discarded. -/
def gpgEncodeVal (gpg : Gnupg) (f : FieldCfg) (value : PyVal) : PyVal :=
  (gpgGetDbPrepValue gpg f value).2

/-- A decrypt-capable identity engine used for concrete witnesses: its
ciphertext is its plaintext. -/
def idCrypter : Crypter :=
  { Encrypt := fun bs => bs
    Decrypt := fun bs => some bs
    primaryKeyIsRsaPublic := false }

/-- A Keyczar engine that cannot decrypt anything (wrong key / corrupt
ciphertext: `Decrypt` raises). -/
def badCrypter : Crypter :=
  { Encrypt := fun bs => bs
    Decrypt := fun _ => none
    primaryKeyIsRsaPublic := false }

/-- A Keyczar engine whose primary key is an `RsaPublicKey`. -/
def pubCrypter : Crypter :=
  { Encrypt := fun bs => bs
    Decrypt := fun bs => some bs
    primaryKeyIsRsaPublic := true }

/-- A Keyczar engine whose ciphertext length depends on plaintext content,
not only its length: the filler `'xx'` encrypts to nothing while anything
else blows up to 100 bytes. -/
def spikyCrypter : Crypter :=
  { Encrypt := fun bs => if bs = List.replicate 2 120 then [] else List.replicate 100 0
    Decrypt := fun bs => some bs
    primaryKeyIsRsaPublic := false }

/-- A GPG handle whose decryption succeeds as the identity. -/
def idGnupg : Gnupg :=
  { encryptStr := fun bs => bs
    decryptStr := fun bs => bs
    userInSecretKeys := true }

/-- A GPG handle whose decryption always fails: python-gnupg signals this
by an empty `str(...)`, never by raising. -/
def failGnupg : Gnupg :=
  { encryptStr := fun bs => bs
    decryptStr := fun _ => []
    userInSecretKeys := true }

/-- A GPG handle whose keyring has no secret key for `GPG_USER`
(encrypt-only deployment). -/
def pubGnupg : Gnupg :=
  { encryptStr := fun bs => bs
    decryptStr := fun bs => bs
    userInSecretKeys := false }

/-- Settings with every relevant attribute present. -/
def stFull : Settings :=
  { ENCRYPTED_FIELD_KEYS_DIR := some "keys"
    GPG_KEYS_DIR := some "gpgkeys"
    GPG_USER := some "user" }

/-- Settings with no relevant attribute present. -/
def stEmpty : Settings :=
  { ENCRYPTED_FIELD_KEYS_DIR := none
    GPG_KEYS_DIR := none
    GPG_USER := none }

/-- Settings with `GPG_KEYS_DIR` present but `GPG_USER` absent. -/
def stNoUser : Settings :=
  { ENCRYPTED_FIELD_KEYS_DIR := some "keys"
    GPG_KEYS_DIR := some "gpgkeys"
    GPG_USER := none }

/-! ### Helper lemmas -/

theorem utf8EncodeChar_ne_nil (c : Nat) : utf8EncodeChar c ≠ [] := by
  unfold utf8EncodeChar
  split_ifs <;> simp

theorem utf8Encode_cons_ne_nil (c : Nat) (cs : List Nat) :
    utf8Encode (c :: cs) ≠ [] := by
  simp only [utf8Encode, List.flatMap_cons]
  intro hh
  exact utf8EncodeChar_ne_nil c (List.append_eq_nil.mp hh).1

theorem isPrefixOf_append_self (l t : List Nat) :
    l.isPrefixOf (l ++ t) = true := by
  induction l with
  | nil => simp [List.isPrefixOf]
  | cons a as ih => simp [List.isPrefixOf, ih]

theorem utf8Decode_cons_none (b : Nat) (rest : List Nat)
    (h : utf8DecodeOne (b :: rest) = none) : utf8Decode (b :: rest) = none := by
  simp only [utf8Decode, List.length_cons, utf8DecodeFuel, h]

theorem utf8Decode_cons_some (b c : Nat) (rest rest2 : List Nat)
    (h : utf8DecodeOne (b :: rest) = some (c, rest2)) :
    utf8Decode (b :: rest) = (utf8Decode rest2).map (fun cs => c :: cs) := by
  have hlen := utf8DecodeOne_length _ _ _ h
  simp only [List.length_cons] at hlen
  simp only [utf8Decode, List.length_cons, utf8DecodeFuel, h]
  rw [utf8DecodeFuel_mono rest.length rest2.length rest2 (by omega) (by omega)]

/-- Decoding one character off an encoded code point peels it off whole. -/
theorem utf8DecodeOne_encodeChar (c : Nat) (rest : List Nat) (hc : c < 1114112) :
    utf8DecodeOne (utf8EncodeChar c ++ rest) = some (c, rest) := by
  by_cases h1 : c < 128
  · simp [utf8EncodeChar, if_pos h1, utf8DecodeOne]
  · by_cases h2 : c < 2048
    · simp only [utf8EncodeChar, if_neg h1, if_pos h2, List.cons_append,
        List.nil_append]
      have e1 : ¬ (192 + c / 64 < 128) := by omega
      have e2 : ¬ (192 + c / 64 < 192) := by omega
      have e3 : 192 + c / 64 < 224 := by omega
      have e4 : isCont (128 + c % 64) = true := by
        simp only [isCont, Nat.beq_eq_true_eq]
        omega
      have e5 : (192 + c / 64 - 192) * 64 + (128 + c % 64 - 128) = c := by omega
      simp only [utf8DecodeOne, if_neg e1, if_neg e2, if_pos e3, e4, if_pos, e5]
    · by_cases h3 : c < 65536
      · simp only [utf8EncodeChar, if_neg h1, if_neg h2, if_pos h3,
          List.cons_append, List.nil_append]
        have e1 : ¬ (224 + c / 4096 < 128) := by omega
        have e2 : ¬ (224 + c / 4096 < 192) := by omega
        have e3 : ¬ (224 + c / 4096 < 224) := by omega
        have e4 : 224 + c / 4096 < 240 := by omega
        have e5 : isCont (128 + c / 64 % 64) = true := by
          simp only [isCont, Nat.beq_eq_true_eq]
          omega
        have e6 : isCont (128 + c % 64) = true := by
          simp only [isCont, Nat.beq_eq_true_eq]
          omega
        have e7 : (224 + c / 4096 - 224) * 4096 + (128 + c / 64 % 64 - 128) * 64
            + (128 + c % 64 - 128) = c := by omega
        simp only [utf8DecodeOne, if_neg e1, if_neg e2, if_neg e3, if_pos e4,
          e5, e6, Bool.and_self, if_pos, e7]
      · simp only [utf8EncodeChar, if_neg h1, if_neg h2, if_neg h3,
          List.cons_append, List.nil_append]
        have e1 : ¬ (240 + c / 262144 < 128) := by omega
        have e2 : ¬ (240 + c / 262144 < 192) := by omega
        have e3 : ¬ (240 + c / 262144 < 224) := by omega
        have e4 : ¬ (240 + c / 262144 < 240) := by omega
        have e5 : 240 + c / 262144 < 248 := by omega
        have e6 : isCont (128 + c / 4096 % 64) = true := by
          simp only [isCont, Nat.beq_eq_true_eq]
          omega
        have e7 : isCont (128 + c / 64 % 64) = true := by
          simp only [isCont, Nat.beq_eq_true_eq]
          omega
        have e8 : isCont (128 + c % 64) = true := by
          simp only [isCont, Nat.beq_eq_true_eq]
          omega
        have e9 : (240 + c / 262144 - 240) * 262144 + (128 + c / 4096 % 64 - 128) * 4096
            + (128 + c / 64 % 64 - 128) * 64 + (128 + c % 64 - 128) = c := by omega
        simp only [utf8DecodeOne, if_neg e1, if_neg e2, if_neg e3, if_neg e4,
          if_pos e5, e6, e7, e8, Bool.and_self, if_pos, e9]

/-- One decoded character: decoding an encoded code point peels it off. -/
theorem utf8Decode_encodeChar (c : Nat) (rest : List Nat) (hc : c < 1114112) :
    utf8Decode (utf8EncodeChar c ++ rest)
      = (utf8Decode rest).map (fun cs => c :: cs) := by
  have hone := utf8DecodeOne_encodeChar c rest hc
  cases he : utf8EncodeChar c with
  | nil => exact absurd he (utf8EncodeChar_ne_nil c)
  | cons b bs =>
    rw [he] at hone
    rw [he, List.cons_append] at *
    exact utf8Decode_cons_some b c (bs ++ rest) rest hone

/-- UTF-8 round trip: decoding an encoded unicode string (within the
code-point range) yields the string back. -/
theorem utf8Decode_utf8Encode (cs : List Nat) (h : ∀ c ∈ cs, c < 1114112) :
    utf8Decode (utf8Encode cs) = some cs := by
  induction cs with
  | nil => rfl
  | cons c rest ih =>
    have hc : c < 1114112 := h c (by simp)
    have ih2 := ih (fun x hx => h x (by simp [hx]))
    simp only [utf8Encode, List.flatMap_cons] at *
    rw [utf8Decode_encodeChar c _ hc, ih2]
    rfl

/-- A value already carrying the tag is left alone by the Keyczar encode. -/
theorem encodeVal_tagged_noop (crypt : Crypter) (f : FieldCfg) (v : PyVal)
    (h : encTag.isPrefixOf v.toList = true) : encodeVal crypt f v = v := by
  simp [encodeVal, get_db_prep_value, h]

/-- The Keyczar encode either returns its input or something tagged. -/
theorem encodeVal_shape (crypt : Crypter) (f : FieldCfg) (v : PyVal) :
    encodeVal crypt f v = v
      ∨ encTag.isPrefixOf (encodeVal crypt f v).toList = true := by
  by_cases h : (v.toList ≠ [] ∧ ¬ encTag.isPrefixOf v.toList = true)
  · right
    simp only [encodeVal, get_db_prep_value, if_pos h]
    simpa [PyVal.toList] using isPrefixOf_append_self encTag _
  · left
    simp only [encodeVal, get_db_prep_value, if_neg h]

/-- The encrypting branch of the Keyczar encode, with the truncation
choice left as an `if`. -/
theorem encodeVal_untagged (crypt : Crypter) (f : FieldCfg) (v : PyVal)
    (h1 : v.toList ≠ []) (h2 : encTag.isPrefixOf v.toList = false) :
    encodeVal crypt f v = .bytes (encTag ++ crypt.Encrypt
      (if natTruthy f.unencrypted_length
          ∧ (pyEncodeUtf8 v).length > f.unencrypted_length.getD 0
       then (pyEncodeUtf8 v).take (f.unencrypted_length.getD 0)
       else pyEncodeUtf8 v)) := by
  simp only [encodeVal, get_db_prep_value]
  rw [if_pos ⟨h1, by simp [h2]⟩]
  split_ifs <;> rfl

/-- A value already carrying the tag is left alone by the GPG encode. -/
theorem gpgEncodeVal_tagged_noop (gpg : Gnupg) (f : FieldCfg) (v : PyVal)
    (h : gpgTag.isPrefixOf v.toList = true) : gpgEncodeVal gpg f v = v := by
  simp [gpgEncodeVal, gpgGetDbPrepValue, h]

/-- The GPG encode either returns its input or something tagged. -/
theorem gpgEncodeVal_shape (gpg : Gnupg) (f : FieldCfg) (v : PyVal) :
    gpgEncodeVal gpg f v = v
      ∨ gpgTag.isPrefixOf (gpgEncodeVal gpg f v).toList = true := by
  by_cases h : (v.toList ≠ [] ∧ ¬ gpgTag.isPrefixOf v.toList = true)
  · right
    simp only [gpgEncodeVal, gpgGetDbPrepValue, if_pos h]
    simpa [PyVal.toList] using isPrefixOf_append_self gpgTag _
  · left
    simp only [gpgEncodeVal, gpgGetDbPrepValue, if_neg h]

/-- The truncating branch of `get_db_prep_value` in full: non-empty,
unprefixed, over-long input is truncated to `unencrypted_length` bytes,
warned about, encrypted and tagged. -/
theorem get_db_prep_value_trunc (crypt : Crypter) (f : FieldCfg) (v : PyVal)
    (m : Nat) (hm : f.unencrypted_length = some m) (hm0 : m ≠ 0)
    (hne : v.toList ≠ []) (htag : encTag.isPrefixOf v.toList = false)
    (hlong : m < (pyEncodeUtf8 v).length) :
    get_db_prep_value crypt f v
      = (some { fieldName := f.name
                fromBytes := (pyEncodeUtf8 v).length
                toBytes := m },
         .bytes (encTag ++ crypt.Encrypt ((pyEncodeUtf8 v).take m))) := by
  simp only [get_db_prep_value]
  rw [if_pos ⟨hne, by simp [htag]⟩]
  simp only [hm, Option.getD_some]
  rw [if_pos ⟨by simp [natTruthy, hm0], hlong⟩]

/-! ### The claims -/

/-- Claim C5: encode is idempotent, for both field families: the second
call is a pass-through because the first call's result already starts
with the prefix tag, so an encoded value is never double-encrypted. -/
theorem C5_idempotent_encode :
    (∀ (crypt : Crypter) (f : FieldCfg) (v : PyVal),
      encodeVal crypt f (encodeVal crypt f v) = encodeVal crypt f v)
    ∧ (∀ (gpg : Gnupg) (f : FieldCfg) (v : PyVal),
      gpgEncodeVal gpg f (gpgEncodeVal gpg f v) = gpgEncodeVal gpg f v) := by
  constructor
  · intro crypt f v
    rcases encodeVal_shape crypt f v with h | h
    · rw [h, h]
    · exact encodeVal_tagged_noop crypt f _ h
  · intro gpg f v
    rcases gpgEncodeVal_shape gpg f v with h | h
    · rw [h, h]
    · exact gpgEncodeVal_tagged_noop gpg f _ h

/-- Claim C6: decoding a stored value that is empty or does not start
with the prefix returns it unchanged (legacy plaintext pass-through) and
never raises, for both field families. -/
theorem C6_legacy_pass_through :
    (∀ (crypt : Crypter) (v : PyVal),
      v.toList = [] ∨ encTag.isPrefixOf v.toList = false →
      to_python crypt v = .ok v)
    ∧ (∀ (gpg : Gnupg) (v : PyVal),
      v.toList = [] ∨ gpgTag.isPrefixOf v.toList = false →
      gpgToPython gpg v = .ok v) := by
  constructor
  · intro crypt v h
    rcases h with h | h <;> by_cases hp : crypt.primaryKeyIsRsaPublic <;>
      simp [to_python, h, hp]
  · intro gpg v h
    rcases h with h | h <;> by_cases hp : gpg.userInSecretKeys <;>
      simp [gpgToPython, h, hp]

/-- Claim C6 witness at concrete legacy plaintext inputs. -/
theorem C6_legacy_pass_through_witness :
    to_python idCrypter (.bytes [104, 105]) = .ok (.bytes [104, 105])
    ∧ gpgToPython idGnupg (.bytes [104, 105]) = .ok (.bytes [104, 105]) :=
  ⟨C6_legacy_pass_through.1 idCrypter (.bytes [104, 105]) (Or.inr (by decide)),
   C6_legacy_pass_through.2 idGnupg (.bytes [104, 105]) (Or.inr (by decide))⟩

/-- Claim C7: with a decrypt-incapable key bound (Keyczar: the primary
key is an `RsaPublicKey`; GPG: `GPG_USER` has no secret key), decoding
any stored value returns it unchanged, even well-formed ciphertext. -/
theorem C7_public_key_pass_through :
    (∀ (crypt : Crypter) (v : PyVal),
      crypt.primaryKeyIsRsaPublic = true → to_python crypt v = .ok v)
    ∧ (∀ (gpg : Gnupg) (v : PyVal),
      gpg.userInSecretKeys = false → gpgToPython gpg v = .ok v) := by
  constructor
  · intro crypt v h
    simp [to_python, h]
  · intro gpg v h
    simp [gpgToPython, h]

/-- Claim C7 witness: well-formed tagged ciphertext is passed through
unchanged when only an encrypt-capable key is bound. -/
theorem C7_public_key_pass_through_witness :
    to_python pubCrypter (.bytes (encTag ++ [1, 2]))
      = .ok (.bytes (encTag ++ [1, 2]))
    ∧ gpgToPython pubGnupg (.bytes (gpgTag ++ [1, 2]))
      = .ok (.bytes (gpgTag ++ [1, 2])) :=
  ⟨C7_public_key_pass_through.1 pubCrypter (.bytes (encTag ++ [1, 2])) rfl,
   C7_public_key_pass_through.2 pubGnupg (.bytes (gpgTag ++ [1, 2])) rfl⟩

/-- Claim C2: a non-empty unprefixed value whose byte length exceeds the
configured `unencrypted_length` is truncated to exactly that many bytes
before encryption, a non-fatal truncation warning carrying the field
name, the original length and the truncated length is emitted, and the
truncated value is still encrypted and returned tagged. -/
theorem C2_truncation (crypt : Crypter) (f : FieldCfg) (v : PyVal) (m : Nat)
    (hm : f.unencrypted_length = some m) (hm0 : m ≠ 0)
    (hne : v.toList ≠ []) (htag : encTag.isPrefixOf v.toList = false)
    (hlong : m < (pyEncodeUtf8 v).length) :
    get_db_prep_value crypt f v
      = (some { fieldName := f.name
                fromBytes := (pyEncodeUtf8 v).length
                toBytes := m },
         .bytes (encTag ++ crypt.Encrypt ((pyEncodeUtf8 v).take m)))
    ∧ ((pyEncodeUtf8 v).take m).length = m := by
  refine ⟨get_db_prep_value_trunc crypt f v m hm hm0 hne htag hlong, ?_⟩
  simp only [List.length_take]
  omega

/-- Claim C2 witness: the spec's own example, 8 bytes `'abcdefgh'` into a
5-byte budget, truncated to `'abcde'` with a warning `8 -> 5`. -/
theorem C2_truncation_witness :
    get_db_prep_value idCrypter
      { name := "f", unencrypted_length := some 5, max_length := none }
      (.bytes [97, 98, 99, 100, 101, 102, 103, 104])
      = (some { fieldName := "f", fromBytes := 8, toBytes := 5 },
         .bytes (encTag ++ [97, 98, 99, 100, 101]))
    ∧ ([97, 98, 99, 100, 101] : List Nat).length = 5 := by
  have h := C2_truncation idCrypter
    { name := "f", unencrypted_length := some 5, max_length := none }
    (.bytes [97, 98, 99, 100, 101, 102, 103, 104]) 5
    rfl (by decide) (by decide) (by decide) (by decide)
  exact ⟨h.1, by decide⟩

/-- Claim C4 (amended): on corrupt ciphertext the Keyczar field's decode
raises the decryption error, but the GPG field's decode returns the
empty string, because `str(gpg.decrypt(...))` is empty on failure and
python-gnupg raises nothing. -/
theorem C4_corrupt_ciphertext :
    (∀ (crypt : Crypter) (g : List Nat),
      crypt.primaryKeyIsRsaPublic = false → crypt.Decrypt g = none →
      to_python crypt (.bytes (encTag ++ g)) = .error .keyczarError)
    ∧ (∀ (gpg : Gnupg) (g : List Nat),
      gpg.userInSecretKeys = true → gpg.decryptStr g = [] →
      gpgToPython gpg (.bytes (gpgTag ++ g)) = .ok (.bytes [])) := by
  constructor
  · intro crypt g hpub hdec
    have h1 : PyVal.toList (.bytes (encTag ++ g)) ≠ [] := by
      simp [PyVal.toList, encTag]
    have h2 : encTag.isPrefixOf (PyVal.toList (.bytes (encTag ++ g))) = true :=
      isPrefixOf_append_self _ _
    have h3 : (PyVal.toList (.bytes (encTag ++ g))).drop encTag.length = g :=
      List.drop_left _ _
    simp [to_python, hpub, h1, h2, h3, hdec]
  · intro gpg g hsec hdec
    have h1 : PyVal.toList (.bytes (gpgTag ++ g)) ≠ [] := by
      simp [PyVal.toList, gpgTag]
    have h2 : gpgTag.isPrefixOf (PyVal.toList (.bytes (gpgTag ++ g))) = true :=
      isPrefixOf_append_self _ _
    have h3 : (PyVal.toList (.bytes (gpgTag ++ g))).drop gpgTag.length = g :=
      List.drop_left _ _
    simp [gpgToPython, hsec, h1, h2, h3, hdec]

/-- Claim C4 counterexample: a GPG engine that cannot decrypt the
garbage suffix, yet decoding `prefix ++ garbage` returns the empty
value instead of raising a decryption error. -/
theorem C4_counterexample :
    failGnupg.decryptStr [1, 2, 3] = []
    ∧ gpgToPython failGnupg (.bytes (gpgTag ++ [1, 2, 3])) = .ok (.bytes []) :=
  ⟨rfl, rfl⟩

/-- Claim C4 witness at concrete failing engines. -/
theorem C4_corrupt_ciphertext_witness :
    to_python badCrypter (.bytes (encTag ++ [7])) = .error .keyczarError
    ∧ gpgToPython failGnupg (.bytes (gpgTag ++ [7])) = .ok (.bytes []) :=
  ⟨C4_corrupt_ciphertext.1 badCrypter [7] rfl rfl,
   C4_corrupt_ciphertext.2 failGnupg [7] rfl rfl⟩

/-- Claim C8: constructing a field with the required key-material setting
absent fails with `ImproperlyConfigured` naming exactly the missing
setting, before any encode or decode exists to be called. -/
theorem C8_missing_configuration :
    (∀ (st : Settings) (crypt : Crypter) (n : String) (ml : Option Nat),
      st.ENCRYPTED_FIELD_KEYS_DIR = none →
      baseEncryptedFieldInit st crypt n ml
        = .error (.improperlyConfigured
          "You must set the ENCRYPTED_FIELD_KEYS_DIR setting to your Keyczar keys directory."))
    ∧ (∀ (st : Settings) (gpg : Gnupg) (n : String) (ml : Option Nat),
      st.GPG_KEYS_DIR = none →
      baseGpgFieldInit st gpg n ml
        = .error (.improperlyConfigured
          "You must set the GPG_KEYS_DIR setting to your GPG keys directory."))
    ∧ (∀ (st : Settings) (gpg : Gnupg) (n : String) (ml : Option Nat),
      st.GPG_KEYS_DIR ≠ none → st.GPG_USER = none →
      baseGpgFieldInit st gpg n ml
        = .error (.improperlyConfigured
          "You must set the GPG_USER setting to your GPG key user (usually an email).")) := by
  refine ⟨?_, ?_, ?_⟩
  · intro st crypt n ml h
    simp [baseEncryptedFieldInit, h]
  · intro st gpg n ml h
    simp [baseGpgFieldInit, h]
  · intro st gpg n ml h1 h2
    simp [baseGpgFieldInit, h1, h2]

/-- Claim C8 witness at concrete settings objects with the respective
attribute missing. -/
theorem C8_missing_configuration_witness :
    baseEncryptedFieldInit stEmpty idCrypter "f" none
      = .error (.improperlyConfigured
        "You must set the ENCRYPTED_FIELD_KEYS_DIR setting to your Keyczar keys directory.")
    ∧ baseGpgFieldInit stEmpty idGnupg "f" none
      = .error (.improperlyConfigured
        "You must set the GPG_KEYS_DIR setting to your GPG keys directory.")
    ∧ baseGpgFieldInit stNoUser idGnupg "f" none
      = .error (.improperlyConfigured
        "You must set the GPG_USER setting to your GPG key user (usually an email).") :=
  ⟨C8_missing_configuration.1 stEmpty idCrypter "f" none rfl,
   C8_missing_configuration.2.1 stEmpty idGnupg "f" none rfl,
   C8_missing_configuration.2.2 stNoUser idGnupg "f" none
     (by simp [stNoUser]) rfl⟩

/-- Claim C9: a non-empty plaintext that itself starts with the tag is
persisted unchanged (unencrypted) by encode; decoding it then takes the
ciphertext branch and tries to decrypt the suffix, so the round trip
fails: concretely, `'enc_str:::a'` encodes to itself and then decodes to
`'a'`. -/
theorem C9_prefix_collision :
    (∀ (crypt : Crypter) (f : FieldCfg) (p : List Nat),
      encTag.isPrefixOf p = true → encodeVal crypt f (.uni p) = .uni p)
    ∧ (∀ (crypt : Crypter) (p : List Nat),
      crypt.primaryKeyIsRsaPublic = false → p ≠ [] →
      encTag.isPrefixOf p = true →
      crypt.Decrypt (p.drop encTag.length) = none →
      to_python crypt (.uni p) = .error .keyczarError)
    ∧ to_python idCrypter (encodeVal idCrypter
        { name := "f", unencrypted_length := some 100, max_length := some 110 }
        (.uni (encTag ++ [97]))) = .ok (.uni [97])
    ∧ PyVal.uni (encTag ++ [97]) ≠ .uni [97] := by
  refine ⟨?_, ?_, ?_, by decide⟩
  · intro crypt f p hp
    exact encodeVal_tagged_noop crypt f _ hp
  · intro crypt p hpub hne hp hdec
    simp [to_python, hpub, PyVal.toList, hne, hp, hdec]
  · rfl

/-- Claim C9 witness at the concrete colliding plaintext. -/
theorem C9_prefix_collision_witness :
    encodeVal idCrypter
      { name := "f", unencrypted_length := some 100, max_length := some 110 }
      (.uni (encTag ++ [97])) = .uni (encTag ++ [97])
    ∧ to_python badCrypter (.uni (encTag ++ [97])) = .error .keyczarError :=
  ⟨C9_prefix_collision.1 idCrypter
    { name := "f", unencrypted_length := some 100, max_length := some 110 }
    (encTag ++ [97]) (isPrefixOf_append_self _ _),
   C9_prefix_collision.2.1 badCrypter (encTag ++ [97]) rfl (by decide)
     (isPrefixOf_append_self _ _) rfl⟩

/-- Claim C10: truncation cuts the UTF-8 byte encoding at exactly
`unencrypted_length` bytes, so it can split a multi-byte character; the
truncated bytes are encrypted anyway, and decoding that stored value then
fails with a UTF-8 decode error: concretely, `u'é'` under a 1-byte budget
round-trips to `UnicodeDecodeError`. -/
theorem C10_multibyte_truncation :
    (∀ (crypt : Crypter) (f : FieldCfg) (p : List Nat) (m : Nat),
      f.unencrypted_length = some m → m ≠ 0 →
      p ≠ [] → encTag.isPrefixOf p = false → m < (utf8Encode p).length →
      encodeVal crypt f (.uni p)
        = .bytes (encTag ++ crypt.Encrypt ((utf8Encode p).take m)))
    ∧ to_python idCrypter (encodeVal idCrypter
        { name := "f", unencrypted_length := some 1, max_length := some 11 }
        (.uni [233])) = .error .unicodeDecodeError := by
  constructor
  · intro crypt f p m hm hm0 hne htag hlong
    have h := get_db_prep_value_trunc crypt f (.uni p) m hm hm0
      (by simpa [PyVal.toList] using hne) (by simpa [PyVal.toList] using htag)
      (by simpa [pyEncodeUtf8] using hlong)
    simp only [encodeVal, h]
    rfl
  · rfl

/-- Claim C10 witness: the truncating encode of `u'é'` at budget 1 stores
the tag plus the first (dangling) byte of its two-byte encoding. -/
theorem C10_multibyte_truncation_witness :
    encodeVal idCrypter
      { name := "f", unencrypted_length := some 1, max_length := some 11 }
      (.uni [233])
      = .bytes (encTag ++ idCrypter.Encrypt ((utf8Encode [233]).take 1)) :=
  C10_multibyte_truncation.1 idCrypter
    { name := "f", unencrypted_length := some 1, max_length := some 11 }
    [233] 1 rfl (by decide) (by decide) (by decide) (by decide)

/-- Claim C1 counterexample: the round trip fails as stated, (a) for a
plaintext within the declared length that itself starts with the tag
(encoded unchanged, then decrypted on read), and (b) for a multi-byte
character whose UTF-8 length exceeds the budget its character count
respects (truncated mid-character, then unreadable) — both with a
decrypt-capable engine. -/
theorem C1_counterexample :
    ((encTag ++ [97]).length ≤ 100
      ∧ to_python idCrypter (encodeVal idCrypter
          { name := "f", unencrypted_length := some 100, max_length := some 110 }
          (.uni (encTag ++ [97]))) ≠ .ok (.uni (encTag ++ [97])))
    ∧ (([233] : List Nat).length ≤ 1
      ∧ to_python idCrypter (encodeVal idCrypter
          { name := "f", unencrypted_length := some 1, max_length := some 11 }
          (.uni [233])) = .error .unicodeDecodeError) := by
  refine ⟨⟨by decide, fun h => ?_⟩, by decide, rfl⟩
  have he : to_python idCrypter (encodeVal idCrypter
      { name := "f", unencrypted_length := some 100, max_length := some 110 }
      (.uni (encTag ++ [97]))) = .ok (.uni [97]) := rfl
  rw [he] at h
  injection h with h1
  injection h1 with h2
  exact absurd h2 (by decide)

/-- Claim C1 (amended): the round trip holds for every unicode plaintext
that does not itself start with the tag and whose UTF-8 byte length fits
the configured budget, with a decrypt-capable engine whose decryption
inverts its encryption. -/
theorem C1_round_trip (crypt : Crypter) (f : FieldCfg) (p : List Nat)
    (hpub : crypt.primaryKeyIsRsaPublic = false)
    (hdec : ∀ bs, crypt.Decrypt (crypt.Encrypt bs) = some bs)
    (hval : ∀ c ∈ p, c < 1114112)
    (htag : encTag.isPrefixOf p = false)
    (hlen : natTruthy f.unencrypted_length = true →
      (utf8Encode p).length ≤ f.unencrypted_length.getD 0) :
    to_python crypt (encodeVal crypt f (.uni p)) = .ok (.uni p) := by
  cases p with
  | nil =>
    have he : encodeVal crypt f (.uni []) = .uni [] := by
      simp [encodeVal, get_db_prep_value, PyVal.toList]
    rw [he]
    simp [to_python, hpub, PyVal.toList]
  | cons c cs =>
    have hnotrunc : ¬ (natTruthy f.unencrypted_length
        ∧ (pyEncodeUtf8 (.uni (c :: cs))).length > f.unencrypted_length.getD 0) := by
      rintro ⟨ht, hgt⟩
      have := hlen ht
      simp only [pyEncodeUtf8] at hgt
      omega
    have he : encodeVal crypt f (.uni (c :: cs))
        = .bytes (encTag ++ crypt.Encrypt (utf8Encode (c :: cs))) := by
      rw [encodeVal_untagged crypt f (.uni (c :: cs)) (by simp [PyVal.toList])
        (by simpa [PyVal.toList] using htag), if_neg hnotrunc]
      rfl
    rw [he]
    have h1 : PyVal.toList
        (.bytes (encTag ++ crypt.Encrypt (utf8Encode (c :: cs)))) ≠ [] := by
      simp [PyVal.toList, encTag]
    have h2 : encTag.isPrefixOf (PyVal.toList
        (.bytes (encTag ++ crypt.Encrypt (utf8Encode (c :: cs))))) = true :=
      isPrefixOf_append_self _ _
    have h3 : (PyVal.toList (.bytes
          (encTag ++ crypt.Encrypt (utf8Encode (c :: cs))))).drop encTag.length
        = crypt.Encrypt (utf8Encode (c :: cs)) :=
      List.drop_left _ _
    have h4 := utf8Decode_utf8Encode (c :: cs) hval
    have h5 := utf8Encode_cons_ne_nil c cs
    simp [to_python, hpub, h1, h2, h3, hdec, h4, h5]

/-- Claim C1 witness: `u'hi'` round-trips through a decrypt-capable
engine under a budget of 5. -/
theorem C1_round_trip_witness :
    to_python idCrypter (encodeVal idCrypter
      { name := "f", unencrypted_length := some 5, max_length := some 15 }
      (.uni [104, 105])) = .ok (.uni [104, 105]) :=
  C1_round_trip idCrypter
    { name := "f", unencrypted_length := some 5, max_length := some 15 }
    [104, 105] rfl (fun _ => rfl) (by decide) (by decide) (by decide)

/-- Claim C3 counterexample: with an engine whose ciphertext length
depends on plaintext content rather than plaintext length alone, the
storage width probed with the `'x'` filler at construction time does not
bound the encoded length of other plaintexts within the declared
maximum. -/
theorem C3_counterexample :
    baseEncryptedFieldInit stFull spikyCrypter "" (some 2)
      = .ok { name := "", unencrypted_length := some 2, max_length := some 10 }
    ∧ ([97] : List Nat).length ≤ 2
    ∧ ¬ ((encodeVal spikyCrypter
          { name := "", unencrypted_length := some 2, max_length := some 10 }
          (.uni [97])).toList.length ≤ 10) := by
  refine ⟨rfl, by decide, by decide⟩

/-- Claim C3 (amended): at construction the stored `max_length` is
`len(prefix) + len(Encrypt('x' * declaredMaxLength))`; and whenever the
engine's ciphertext length is a monotone function of the plaintext
length alone and never shrinks below it, every plaintext within the
declared maximum encodes within that storage width. -/
theorem C3_storage_width (st : Settings) (crypt : Crypter) (n : String)
    (m : Nat) (f : FieldCfg) (hm0 : m ≠ 0)
    (hok : baseEncryptedFieldInit st crypt n (some m) = .ok f) :
    f.max_length
      = some (encTag.length + (crypt.Encrypt (List.replicate m 120)).length)
    ∧ ((∀ a b : List Nat, a.length ≤ b.length →
          (crypt.Encrypt a).length ≤ (crypt.Encrypt b).length) →
       (∀ bs : List Nat, bs.length ≤ (crypt.Encrypt bs).length) →
       ∀ p : List Nat, p.length ≤ m →
         (encodeVal crypt f (.uni p)).toList.length ≤ f.max_length.getD 0) := by
  by_cases hs : st.ENCRYPTED_FIELD_KEYS_DIR = none
  · simp [baseEncryptedFieldInit, hs] at hok
  · simp only [baseEncryptedFieldInit, if_neg hs, natTruthy, hm0,
      Option.getD_some, bne_iff_ne, ne_eq, not_false_eq_true, if_true,
      Except.ok.injEq] at hok
    subst hok
    refine ⟨rfl, ?_⟩
    intro hmono hgrow p hp
    have hxm : m ≤ (crypt.Encrypt (List.replicate m 120)).length := by
      have := hgrow (List.replicate m 120)
      simpa using this
    by_cases h : (PyVal.toList (.uni p) ≠ []
        ∧ ¬ encTag.isPrefixOf (PyVal.toList (.uni p)) = true)
    · rw [encodeVal_untagged _ _ _ h.1 (Bool.eq_false_iff.mpr h.2)]
      have hw : ((if natTruthy (some m)
            ∧ (pyEncodeUtf8 (.uni p)).length > (some m : Option Nat).getD 0
          then ((pyEncodeUtf8 (.uni p)).take ((some m : Option Nat).getD 0))
          else pyEncodeUtf8 (.uni p))).length ≤ m := by
        split_ifs with hc
        · simp only [Option.getD_some, List.length_take]
          omega
        · simp only [natTruthy, Option.getD_some, bne_iff_ne, ne_eq, hm0,
            not_false_eq_true, true_and, not_lt] at hc
          exact hc
      have hm2 := hmono _ (List.replicate m 120)
        (by simpa using hw)
      simp only [PyVal.toList, List.length_append, Option.getD_some,
        gt_iff_lt] at hw hm2 ⊢
      omega
    · simp only [encodeVal, get_db_prep_value, if_neg h]
      simp only [PyVal.toList, Option.getD_some]
      omega

/-- Claim C3 witness: with a length-determined, non-shrinking engine the
probed width bounds a shorter plaintext's stored length. -/
theorem C3_storage_width_witness :
    (baseEncryptedFieldInit stFull idCrypter "" (some 3)
        = .ok { name := "", unencrypted_length := some 3, max_length := some 13 })
    ∧ (encodeVal idCrypter
        { name := "", unencrypted_length := some 3, max_length := some 13 }
        (.uni [104])).toList.length ≤ 13 := by
  refine ⟨rfl, ?_⟩
  have h := C3_storage_width stFull idCrypter "" 3
    { name := "", unencrypted_length := some 3, max_length := some 13 }
    (by decide) rfl
  have h2 := h.2 (fun a b hab => hab) (fun bs => Nat.le_refl _) [104] (by decide)
  simpa using h2

end Encrypted
